import Mathlib

/-!
Shallow embedding of the state-synchronizer coordinator
(src/state-synchronizer/src/coordinator.rs) and proofs about it.

Modelling conventions:
* u64 versions and epochs become Nat; the single place where u64
  subtraction can underflow (process_request_waypoint) is modelled with an
  explicit underflow check that returns a distinguished error.
* External collaborators (executor proxy, request manager, network,
  mempool, oneshot callbacks) are oracles collected in an Env record;
  calls to them are recorded in an effect list.
* BTreeMap becomes a key-sorted association list; HashMap becomes an
  association list with unique keys.
* SystemTime becomes a Nat passed in as the parameter now.
-/

namespace StateSync

/-- Modelled from the spec: LedgerInfoWithSignatures is a signed commitment to
a (version, epoch, ends_epoch, timestamp_usecs) tuple, opaque to the
coordinator except via its attributes and the trusted verifier; sig_id stands
for the signature part so that two LIs with equal attributes can still differ. -/
structure LedgerInfo where
  version : Nat
  epoch : Nat
  ends_epoch : Bool
  timestamp_usecs : Nat
  sig_id : Nat
deriving DecidableEq

/-- Modelled from the spec: a Waypoint pins an immutable trusted version. -/
structure Waypoint where
  version : Nat
deriving DecidableEq

/-- Modelled from the spec: SynchronizerState is the cached view of local
storage: highest committed ledger info, highest version in local storage
(may exceed the committed version) and the current epoch. -/
structure SynchronizerState where
  highest_local_li : LedgerInfo
  highest_version_in_local_storage : Nat
  epoch : Nat
deriving DecidableEq

/-- Modelled from the spec: a transaction is either a user transaction
(with sender and sequence number, forwarded to mempool on commit) or not. -/
inductive Transaction where
  | user (sender : Nat) (sequence_number : Nat)
  | other
deriving DecidableEq

/-- Modelled from the spec: a contiguous range of transactions plus proof;
may be empty, in which case first_transaction_version is none. -/
structure TransactionListWithProof where
  first_transaction_version : Option Nat
  transactions : List Transaction
deriving DecidableEq

inductive TargetType where
  | targetLedgerInfo (li : LedgerInfo)
  | highestAvailable (target_li : Option LedgerInfo) (timeout_ms : Nat)
  | waypoint (version : Nat)
deriving DecidableEq

structure GetChunkRequest where
  known_version : Nat
  current_epoch : Nat
  limit : Nat
  target : TargetType
deriving DecidableEq

inductive ResponseLedgerInfo where
  | verifiableLedgerInfo (li : LedgerInfo)
  | progressiveLedgerInfo (target_li : LedgerInfo) (highest_li : Option LedgerInfo)
  | ledgerInfoForWaypoint (waypoint_li : LedgerInfo) (end_of_epoch_li : Option LedgerInfo)
deriving DecidableEq

/-- Modelled from the spec: the version a chunk response proof is anchored at
(chunk_response.rs is not under src): the highest LI carried by the response. -/
def ResponseLedgerInfo.version : ResponseLedgerInfo → Nat
  | .verifiableLedgerInfo li => li.version
  | .progressiveLedgerInfo target_li highest_li => (highest_li.getD target_li).version
  | .ledgerInfoForWaypoint waypoint_li _ => waypoint_li.version

structure GetChunkResponse where
  response_li : ResponseLedgerInfo
  txn_list_with_proof : TransactionListWithProof
deriving DecidableEq

structure PendingRequestInfo where
  expiration_time : Nat
  known_version : Nat
  request_epoch : Nat
  limit : Nat
deriving DecidableEq

/-- SyncRequest without the oneshot callback (callback firing is an effect). -/
structure SyncRequest where
  target : LedgerInfo
  last_progress_tst : Nat
deriving DecidableEq

structure StateSyncConfig where
  chunk_limit : Nat
  max_chunk_limit : Nat
  max_timeout_ms : Nat
  long_poll_timeout_ms : Nat
  max_pending_li_limit : Nat
  sync_request_timeout_ms : Nat
  tick_interval_ms : Nat
deriving DecidableEq

/-- The BTreeMap of pending ledger infos, as a key-sorted association list. -/
structure PendingLedgerInfos where
  pending_li_queue : List (Nat × LedgerInfo)
  max_pending_li_limit : Nat
  target_li : Option LedgerInfo
deriving DecidableEq

/-- Sorted insert mirroring BTreeMap insert: keeps keys strictly ascending,
replaces the value when the key is already present. -/
def qInsert (k : Nat) (v : LedgerInfo) : List (Nat × LedgerInfo) → List (Nat × LedgerInfo)
  | [] => [(k, v)]
  | (k1, v1) :: rest =>
    if k < k1 then (k, v) :: (k1, v1) :: rest
    else if k = k1 then (k, v) :: rest
    else (k1, v1) :: qInsert k v rest

/-- PendingLedgerInfos::add_li: drop when at capacity, insert only when the
new LI is ahead of the current target version (0 when no target). -/
def PendingLedgerInfos.add_li (p : PendingLedgerInfos) (new_li : LedgerInfo) :
    PendingLedgerInfos :=
  if p.max_pending_li_limit ≤ p.pending_li_queue.length then p
  else
    let target_version := (p.target_li.map (fun li => li.version)).getD 0
    if target_version < new_li.version then
      { p with pending_li_queue := qInsert new_li.version new_li p.pending_li_queue }
    else p

/-- PendingLedgerInfos::update: prune entries at or below the committed
version (BTreeMap split_off at committed + 1), then pick the target: when
fully caught up (committed = synced) the highest pending LI reachable within
one chunk, otherwise the lowest pending LI. -/
def PendingLedgerInfos.update (p : PendingLedgerInfos) (sync_state : SynchronizerState)
    (chunk_limit : Nat) : PendingLedgerInfos :=
  let highest_committed_li := sync_state.highest_local_li.version
  let highest_synced := sync_state.highest_version_in_local_storage
  let queue := p.pending_li_queue.filter (fun e => highest_committed_li + 1 ≤ e.1)
  let target :=
    if highest_committed_li = highest_synced then
      ((queue.filter (fun e => e.1 ≤ highest_synced + chunk_limit)).getLast?).map
        (fun e => e.2)
    else
      (queue.head?).map (fun e => e.2)
  { p with pending_li_queue := queue, target_li := target }

/-- Coordinator-owned mutable state (SyncCoordinator fields other than the
external actors and channels). -/
structure CoordState where
  local_state : SynchronizerState
  config : StateSyncConfig
  waypoint : Waypoint
  sync_request : Option SyncRequest
  pending_ledger_infos : PendingLedgerInfos
  init_listener_present : Bool
  subscriptions : List (Nat × PendingRequestInfo)
deriving DecidableEq

inductive PeerScoreUpdateType where
  | emptyChunk
  | invalidChunk
deriving DecidableEq

inductive Err where
  | storage
  | notInitialized
  | alreadyInitialized
  | versionRegression
  | callbackFail
  | noPeers
  | sendFail
  | downstream
  | emptyChunk
  | versionMismatch
  | progressiveOrder
  | responseTooHigh
  | verifyFail
  | executeFail
  | epochProofFail
  | epochEndingFail
  | getChunkFail
  | belowWaypoint
  | knownBeyondWaypoint
  | u64Underflow
  | beyondTarget
deriving DecidableEq

/-- Observable calls into the external collaborators. -/
inductive Effect where
  | verify (li : LedgerInfo)
  | waypointVerify (li : LedgerInfo)
  | addPendingLI (li : LedgerInfo)
  | executeChunk (txns : TransactionListWithProof) (target : LedgerInfo)
      (intermediate : Option LedgerInfo)
  | updateScore (peer : Nat) (u : PeerScoreUpdateType)
  | mismatchCall (peer : Nat) (chunk_start : Nat) (known : Nat)
  | sendChunkReq (req : GetChunkRequest)
  | fireSyncCallback (ok : Bool)
  | fireInitCallback (ok : Bool)
  | commitAck (msg_empty : Bool)
  | mempoolNotif (txns : List (Nat × Nat)) (block_timestamp_usecs : Nat)
  | deliverChunk (peer : Nat) (resp : GetChunkResponse)
  | removeRequests (version : Nat)
  | processSuccessResponse (peer : Nat)
deriving DecidableEq

/-- Oracles for the external collaborators: each field is the outcome the
collaborator would produce for the corresponding call during one handler
invocation. -/
structure Env where
  storage_state : Except Unit SynchronizerState
  get_epoch_proof : Nat → Except Unit LedgerInfo
  get_epoch_ending_ledger_info : Nat → Except Unit LedgerInfo
  get_chunk : Nat → Nat → Nat → Except Unit TransactionListWithProof
  execute_chunk_ok : TransactionListWithProof → LedgerInfo → Option LedgerInfo → Bool
  verify_ok : LedgerInfo → Bool
  waypoint_verify_ok : LedgerInfo → Bool
  is_known_upstream_peer : Nat → Bool
  no_available_peers : Bool
  mismatch_ok : Bool
  rm_send_ok : Bool
  network_send_ok : Nat → Bool
  mempool_send_ok : Bool
  mempool_ack_ok : Bool
  sync_callback_send_ok : Bool
  init_callback_send_ok : Bool

/-- Result of one coordinator operation: the Result value, the state after,
and the external calls made (in order). -/
structure Outcome where
  result : Except Err Unit
  state : CoordState
  effects : List Effect

/-- is_initialized: the local committed version has reached the waypoint. -/
def is_initialized (st : CoordState) : Bool :=
  st.waypoint.version ≤ st.local_state.highest_local_li.version

/-- sync_state_with_local_storage: refresh the cached state from storage and
update the pending ledger infos. -/
def sync_state_with_local_storage (env : Env) (st : CoordState) : Except Unit CoordState :=
  match env.storage_state with
  | .error _ => .error ()
  | .ok new_state =>
    .ok { st with
      local_state := new_state,
      pending_ledger_infos :=
        st.pending_ledger_infos.update new_state st.config.chunk_limit }

/-- choose_response_li: the requested target (or the highest local LI), demoted
to the end-of-epoch LI when its epoch is past the request epoch. -/
def choose_response_li (env : Env) (st : CoordState) (request_epoch : Nat)
    (target : Option LedgerInfo) : Except Err LedgerInfo :=
  let target_li := target.getD st.local_state.highest_local_li
  if request_epoch < target_li.epoch then
    match env.get_epoch_proof request_epoch with
    | .error _ => .error .epochProofFail
    | .ok end_of_epoch_li => .ok end_of_epoch_li
  else .ok target_li

/-- deliver_chunk: fetch the transactions from storage and send the response. -/
def deliver_chunk (env : Env) (peer : Nat) (known_version : Nat)
    (response_li : ResponseLedgerInfo) (limit : Nat) : Except Err Unit × List Effect :=
  match env.get_chunk known_version limit response_li.version with
  | .error _ => (.error .getChunkFail, [])
  | .ok txns =>
    ((if env.network_send_ok peer then .ok () else .error .sendFail),
     [Effect.deliverChunk peer ⟨response_li, txns⟩])

/-- deliver_subscription: serve a stored long-poll request. -/
def deliver_subscription (env : Env) (st : CoordState) (peer : Nat)
    (request_info : PendingRequestInfo) : Except Err Unit × List Effect :=
  match choose_response_li env st request_info.request_epoch none with
  | .error e => (.error e, [])
  | .ok response_li =>
    deliver_chunk env peer request_info.known_version
      (.verifiableLedgerInfo response_li) request_info.limit

/-- check_subscriptions: drop expired subscriptions, deliver (and remove) the
ones whose known version is behind the local committed version. -/
def check_subscriptions (env : Env) (st : CoordState) (now : Nat) :
    CoordState × List Effect :=
  let highest_li_version := st.local_state.highest_local_li.version
  let kept := st.subscriptions.filter (fun e =>
    decide (now < e.2.expiration_time) && !(decide (e.2.known_version < highest_li_version)))
  let ready := st.subscriptions.filter (fun e =>
    decide (now < e.2.expiration_time) && decide (e.2.known_version < highest_li_version))
  ({ st with subscriptions := kept },
   (ready.map (fun e => (deliver_subscription env st e.1 e.2).2)).flatten)

/-- send_chunk_request: pick the target by initialization and sync-request
status and hand the request to the request manager; a fulfilled sync request
is a no-op success. -/
def send_chunk_request (env : Env) (st : CoordState) (known_version : Nat)
    (known_epoch : Nat) : Except Err Unit × List Effect :=
  if env.no_available_peers then (.error .noPeers, [])
  else
    let target : Option TargetType :=
      if ¬ is_initialized st then some (.waypoint st.waypoint.version)
      else
        match st.sync_request with
        | none =>
          some (.highestAvailable st.pending_ledger_infos.target_li
            st.config.long_poll_timeout_ms)
        | some sync_req =>
          if sync_req.target.version ≤ known_version then none
          else some (.targetLedgerInfo sync_req.target)
    match target with
    | none => (.ok (), [])
    | some t =>
      let req : GetChunkRequest := ⟨known_version, known_epoch, st.config.chunk_limit, t⟩
      ((if env.rm_send_ok then .ok () else .error .sendFail), [Effect.sendChunkReq req])

/-- request_sync: note that the comparisons use the committed version read at
entry (the Rust code binds local_li_version before sync_state_with_local_storage). -/
def request_sync (env : Env) (st : CoordState) (request : SyncRequest) : Outcome :=
  let local_li_version := st.local_state.highest_local_li.version
  let target_version := request.target.version
  match sync_state_with_local_storage env st with
  | .error _ => ⟨.error .storage, st, []⟩
  | .ok st1 =>
    if ¬ is_initialized st1 then ⟨.error .notInitialized, st1, []⟩
    else if target_version = local_li_version then
      ⟨(if env.sync_callback_send_ok then .ok () else .error .callbackFail), st1,
       [Effect.fireSyncCallback true]⟩
    else if target_version < local_li_version then
      ⟨.error (if env.sync_callback_send_ok then .versionRegression else .callbackFail),
       st1, [Effect.fireSyncCallback false]⟩
    else
      let st2 : CoordState := { st1 with sync_request := some request }
      let r := send_chunk_request env st2
        st2.local_state.highest_version_in_local_storage st2.local_state.epoch
      ⟨r.1, st2, r.2⟩

/-- validate_and_store_chunk: a target at or below the local committed
(epoch, version) pair (lexicographically) is stale and succeeds as a no-op;
otherwise the chunk is executed and committed via the executor proxy. -/
def validate_and_store_chunk (env : Env) (st : CoordState)
    (txn_list_with_proof : TransactionListWithProof) (target : LedgerInfo)
    (intermediate_end_of_epoch_li : Option LedgerInfo) : Outcome :=
  let target_epoch := target.epoch
  let target_version := target.version
  let local_epoch := st.local_state.highest_local_li.epoch
  let local_version := st.local_state.highest_local_li.version
  if target_epoch < local_epoch ∨ (target_epoch = local_epoch ∧ target_version ≤ local_version)
  then ⟨.ok (), st, []⟩
  else
    ⟨(if env.execute_chunk_ok txn_list_with_proof target intermediate_end_of_epoch_li
       then .ok () else .error .executeFail), st,
     [Effect.executeChunk txn_list_with_proof target intermediate_end_of_epoch_li]⟩

/-- process_response_with_verifiable_li: check initialization and the sync
request bound, verify the response LI, verify (only when distinct) and add
the pending LI, store the chunk, refresh state, optimistically request the
next chunk (failures of that last send are swallowed). -/
def process_response_with_verifiable_li (env : Env) (st : CoordState)
    (txn_list_with_proof : TransactionListWithProof) (response_li : LedgerInfo)
    (pending_li : Option LedgerInfo) : Outcome :=
  if ¬ is_initialized st then ⟨.error .notInitialized, st, []⟩
  else if (match st.sync_request with
           | some sync_req => decide (sync_req.target.version < response_li.version)
           | none => false)
  then ⟨.error .responseTooHigh, st, []⟩
  else
    let new_epoch :=
      if response_li.version =
           st.local_state.highest_version_in_local_storage +
             txn_list_with_proof.transactions.length
         ∧ response_li.ends_epoch = true
      then st.local_state.epoch + 1
      else st.local_state.epoch
    if ¬ env.verify_ok response_li then
      ⟨.error .verifyFail, st, [Effect.verify response_li]⟩
    else
      let pend : Outcome :=
        match pending_li with
        | none => ⟨.ok (), st, []⟩
        | some li =>
          if li = response_li then
            ⟨.ok (), { st with pending_ledger_infos := st.pending_ledger_infos.add_li li },
             [Effect.addPendingLI li]⟩
          else if env.verify_ok li then
            ⟨.ok (), { st with pending_ledger_infos := st.pending_ledger_infos.add_li li },
             [Effect.verify li, Effect.addPendingLI li]⟩
          else ⟨.error .verifyFail, st, [Effect.verify li]⟩
      match pend.result with
      | .error e => ⟨.error e, pend.state, Effect.verify response_li :: pend.effects⟩
      | .ok _ =>
        let v := validate_and_store_chunk env pend.state txn_list_with_proof response_li none
        match v.result with
        | .error e =>
          ⟨.error e, v.state, Effect.verify response_li :: (pend.effects ++ v.effects)⟩
        | .ok _ =>
          match sync_state_with_local_storage env v.state with
          | .error _ =>
            ⟨.error .storage, v.state,
             Effect.verify response_li :: (pend.effects ++ v.effects)⟩
          | .ok st2 =>
            let r := send_chunk_request env st2
              st2.local_state.highest_version_in_local_storage new_epoch
            ⟨.ok (), st2,
             Effect.verify response_li :: (pend.effects ++ v.effects ++ r.2)⟩

/-- process_response_with_waypoint_li: only while not initialized; eagerly
request the next chunk while below the waypoint, verify the waypoint LI,
then validate and store. -/
def process_response_with_waypoint_li (env : Env) (st : CoordState)
    (txn_list_with_proof : TransactionListWithProof) (waypoint_li : LedgerInfo)
    (end_of_epoch_li : Option LedgerInfo) : Outcome :=
  if is_initialized st then ⟨.error .alreadyInitialized, st, []⟩
  else
    let new_version :=
      st.local_state.highest_version_in_local_storage +
        txn_list_with_proof.transactions.length
    let new_epoch :=
      match end_of_epoch_li with
      | some li =>
        if li.version = new_version then st.local_state.epoch + 1 else st.local_state.epoch
      | none => st.local_state.epoch
    let req_effects :=
      if new_version < st.waypoint.version
      then (send_chunk_request env st new_version new_epoch).2 else []
    if env.waypoint_verify_ok waypoint_li then
      let v := validate_and_store_chunk env st txn_list_with_proof waypoint_li end_of_epoch_li
      ⟨v.result, v.state, req_effects ++ (Effect.waypointVerify waypoint_li :: v.effects)⟩
    else ⟨.error .verifyFail, st, req_effects ++ [Effect.waypointVerify waypoint_li]⟩

/-- apply_chunk: reject downstream peers, penalize empty chunks, run the
version-mismatch handler for unexpected starts, dispatch on the response LI
kind, and penalize the peer when the dispatch fails. -/
def apply_chunk (env : Env) (st : CoordState) (peer : Nat)
    (response : GetChunkResponse) : Outcome :=
  if ¬ env.is_known_upstream_peer peer then ⟨.error .downstream, st, []⟩
  else
    let txn_list_with_proof := response.txn_list_with_proof
    let known_version := st.local_state.highest_version_in_local_storage
    match txn_list_with_proof.first_transaction_version with
    | none => ⟨.error .emptyChunk, st, [Effect.updateScore peer .emptyChunk]⟩
    | some chunk_start_version =>
      let mismatch_effects :=
        if chunk_start_version ≠ known_version + 1
        then [Effect.mismatchCall peer chunk_start_version known_version] else []
      if chunk_start_version ≠ known_version + 1 ∧ env.mismatch_ok = false then
        ⟨.error .versionMismatch, st, mismatch_effects⟩
      else
        let d : Outcome :=
          match response.response_li with
          | .verifiableLedgerInfo li =>
            process_response_with_verifiable_li env st txn_list_with_proof li none
          | .progressiveLedgerInfo target_li highest_li_opt =>
            let highest_li := highest_li_opt.getD target_li
            if highest_li.version < target_li.version then
              ⟨.error .progressiveOrder, st, []⟩
            else
              process_response_with_verifiable_li env st txn_list_with_proof target_li
                (some highest_li)
          | .ledgerInfoForWaypoint waypoint_li end_of_epoch_li =>
            process_response_with_waypoint_li env st txn_list_with_proof waypoint_li
              end_of_epoch_li
        match d.result with
        | .error e =>
          ⟨.error e, d.state,
           mismatch_effects ++ d.effects ++ [Effect.updateScore peer .invalidChunk]⟩
        | .ok _ => ⟨.ok (), d.state, mismatch_effects ++ d.effects⟩

/-- HashMap insert on the subscription table: replaces any entry with the
same peer key. -/
def subInsert (peer : Nat) (info : PendingRequestInfo)
    (subs : List (Nat × PendingRequestInfo)) : List (Nat × PendingRequestInfo) :=
  (peer, info) :: subs.filter (fun e => e.1 ≠ peer)

/-- process_request_highest_available: store a long-poll subscription when
there is nothing to serve and the clamped timeout is positive, otherwise
answer at once with a ProgressiveLedgerInfo; the highest_li field is present
exactly when the chosen target is behind the local committed version and in
the local epoch. SystemTime checked_add is modelled as Nat addition (never
overflows in the model). -/
def process_request_highest_available (env : Env) (st : CoordState) (peer : Nat)
    (request : GetChunkRequest) (target_li : Option LedgerInfo) (timeout_ms : Nat)
    (now : Nat) : Outcome :=
  let limit := min request.limit st.config.max_chunk_limit
  let timeout := min timeout_ms st.config.max_timeout_ms
  let local_version := st.local_state.highest_local_li.version
  if local_version ≤ request.known_version ∧ 0 < timeout then
    let request_info : PendingRequestInfo :=
      ⟨now + timeout, request.known_version, request.current_epoch, limit⟩
    ⟨.ok (), { st with subscriptions := subInsert peer request_info st.subscriptions }, []⟩
  else
    match choose_response_li env st request.current_epoch target_li with
    | .error e => ⟨.error e, st, []⟩
    | .ok chosen =>
      let highest_li :=
        if chosen.version < local_version ∧ chosen.epoch = st.local_state.epoch
        then some st.local_state.highest_local_li else none
      let r := deliver_chunk env peer request.known_version
        (.progressiveLedgerInfo chosen highest_li) limit
      ⟨r.1, st, r.2⟩

/-- process_request_waypoint: serve initialization chunks anchored at the
waypoint LI; when the waypoint LI epoch is past the request epoch the limit
is clamped by the u64 subtraction end_of_epoch_li.version - known_version,
whose underflow (a panic in a debug build, a wrap in release) is modelled by
the distinguished error u64Underflow. -/
def process_request_waypoint (env : Env) (st : CoordState) (peer : Nat)
    (request : GetChunkRequest) (waypoint_version : Nat) : Outcome :=
  let limit0 := min request.limit st.config.max_chunk_limit
  if st.local_state.highest_local_li.version < waypoint_version then
    ⟨.error .belowWaypoint, st, []⟩
  else if waypoint_version ≤ request.known_version then
    ⟨.error .knownBeyondWaypoint, st, []⟩
  else
    match env.get_epoch_ending_ledger_info waypoint_version with
    | .error _ => ⟨.error .epochEndingFail, st, []⟩
    | .ok waypoint_li =>
      if request.current_epoch < waypoint_li.epoch then
        match env.get_epoch_proof request.current_epoch with
        | .error _ => ⟨.error .epochProofFail, st, []⟩
        | .ok end_of_epoch_li =>
          if end_of_epoch_li.version < request.known_version then
            ⟨.error .u64Underflow, st, []⟩
          else
            let num_txns_until_end_of_epoch :=
              end_of_epoch_li.version - request.known_version
            let limit := min limit0 num_txns_until_end_of_epoch
            let r := deliver_chunk env peer request.known_version
              (.ledgerInfoForWaypoint waypoint_li (some end_of_epoch_li)) limit
            ⟨r.1, st, r.2⟩
      else
        let r := deliver_chunk env peer request.known_version
          (.ledgerInfoForWaypoint waypoint_li none) limit0
        ⟨r.1, st, r.2⟩

/-- Filter for the user transactions forwarded to mempool on commit. -/
def filter_user_txns : List Transaction → List (Nat × Nat)
  | [] => []
  | .user sender sequence_number :: rest => (sender, sequence_number) :: filter_user_txns rest
  | .other :: rest => filter_user_txns rest

/-- Tail of process_commit: fire the initialization listener when present and
the waypoint has been reached. -/
def complete_init (env : Env) (st : CoordState) (effs : List Effect) : Outcome :=
  if st.init_listener_present && is_initialized st then
    ⟨(if env.init_callback_send_ok then .ok () else .error .callbackFail),
     { st with init_listener_present := false },
     effs ++ [Effect.fireInitCallback true]⟩
  else ⟨.ok (), st, effs⟩

/-- process_commit: refresh local state, notify mempool (failures recorded in
msg only), ack consensus when a callback is present, sweep subscriptions,
clear request-manager bookkeeping, touch the live sync request, enforce
synced_version at most the sync target (else error), complete the sync
request on equality, and finally complete initialization. -/
def process_commit (env : Env) (st : CoordState) (transactions : List Transaction)
    (has_commit_callback : Bool) (chunk_sender : Option Nat) (now : Nat) : Outcome :=
  match sync_state_with_local_storage env st with
  | .error _ => ⟨.error .storage, st, []⟩
  | .ok st1 =>
    let synced_version := st1.local_state.highest_version_in_local_storage
    let block_timestamp_usecs := st1.local_state.highest_local_li.timestamp_usecs
    let msg_empty := env.mempool_send_ok && env.mempool_ack_ok
    let pre1 : List Effect :=
      Effect.mempoolNotif (filter_user_txns transactions) block_timestamp_usecs ::
        (if has_commit_callback then [Effect.commitAck msg_empty] else [])
    let sub := check_subscriptions env st1 now
    let pre2 : List Effect :=
      pre1 ++ sub.2 ++ [Effect.removeRequests synced_version] ++
        (match chunk_sender with
         | some peer => [Effect.processSuccessResponse peer]
         | none => [])
    let st3 : CoordState :=
      { sub.1 with
        sync_request := sub.1.sync_request.map
          (fun r => { r with last_progress_tst := now }) }
    match st3.sync_request with
    | some sync_req =>
      if sync_req.target.version < synced_version then
        ⟨.error .beyondTarget, st3, pre2⟩
      else if sync_req.target.version = synced_version then
        let st4 : CoordState := { st3 with sync_request := none }
        if env.sync_callback_send_ok then
          complete_init env st4 (pre2 ++ [Effect.fireSyncCallback true])
        else ⟨.error .callbackFail, st4, pre2 ++ [Effect.fireSyncCallback true]⟩
      else complete_init env st3 pre2
    | none => complete_init env st3 pre2

/-- Recognizer for sync-request callback effects. -/
def isFireSync : Effect → Bool
  | .fireSyncCallback _ => true
  | _ => false

/-- Recognizer for trusted-verifier calls. -/
def isVerifyEff : Effect → Bool
  | .verify _ => true
  | _ => false

/-- Strict ascending order of the keys of an association list (the BTreeMap
representation invariant). -/
def qSorted : List (Nat × LedgerInfo) → Bool
  | [] => true
  | [_] => true
  | a :: b :: rest => decide (a.1 < b.1) && qSorted (b :: rest)

/-- Ledger info literal with the given version and epoch. -/
def li (v e : Nat) : LedgerInfo := ⟨v, e, false, 0, 0⟩

/-- Oracle environment in which every external call succeeds and storage
reads return the given snapshot. -/
def allOkEnv (s : SynchronizerState) : Env where
  storage_state := .ok s
  get_epoch_proof := fun _ => .ok (li 0 0)
  get_epoch_ending_ledger_info := fun _ => .ok (li 0 0)
  get_chunk := fun _ _ _ => .ok ⟨none, []⟩
  execute_chunk_ok := fun _ _ _ => true
  verify_ok := fun _ => true
  waypoint_verify_ok := fun _ => true
  is_known_upstream_peer := fun _ => true
  no_available_peers := false
  mismatch_ok := true
  rm_send_ok := true
  network_send_ok := fun _ => true
  mempool_send_ok := true
  mempool_ack_ok := true
  sync_callback_send_ok := true
  init_callback_send_ok := true

/-- Default configuration used by the concrete test states. -/
def cfg0 : StateSyncConfig := ⟨50, 100, 1000, 1000, 10, 1000, 100⟩

/-- Coordinator state with the given local snapshot, waypoint 0, no sync
request, empty pending queue and no subscriptions. -/
def baseState (ls : SynchronizerState) : CoordState where
  local_state := ls
  config := cfg0
  waypoint := ⟨0⟩
  sync_request := none
  pending_ledger_infos := ⟨[], 10, none⟩
  init_listener_present := false
  subscriptions := []

/-- Concrete inputs for the process_commit claim: a live sync request whose
target the refreshed synced version reaches exactly. -/
def req1 : SyncRequest := ⟨li 250 1, 0⟩

def st1c : CoordState := { baseState ⟨li 100 1, 100, 1⟩ with sync_request := some req1 }

def env1 : Env := allOkEnv ⟨li 200 1, 250, 1⟩

/-- Concrete inputs for the request_sync claim: the cached committed version
is 100 but storage has already advanced to 250, and the client asks for 250. -/
def st2c : CoordState := baseState ⟨li 100 1, 100, 1⟩

def env2 : Env := allOkEnv ⟨li 250 1, 250, 1⟩

def req2 : SyncRequest := ⟨li 250 1, 0⟩

/-- Concrete inputs for the validate_and_store_chunk claim: local committed
(epoch 2, version 300), response target (epoch 2, version 250). -/
def st3c : CoordState := baseState ⟨li 300 2, 300, 2⟩

def env3 : Env := allOkEnv ⟨li 300 2, 300, 2⟩

/-- Concrete inputs for the send_chunk_request claim: an uninitialized node
(waypoint 100, committed 50). -/
def st4c : CoordState := { baseState ⟨li 50 1, 50, 1⟩ with waypoint := ⟨100⟩ }

def env4 : Env := allOkEnv ⟨li 50 1, 50, 1⟩

/-- Concrete inputs for the highest-available claim: max_timeout_ms is 0, so
the clamped timeout is 0 even though the request asks for 1000 ms. -/
def st5c : CoordState :=
  { baseState ⟨li 5 1, 5, 1⟩ with config := { cfg0 with max_timeout_ms := 0 } }

def env5 : Env := allOkEnv ⟨li 5 1, 5, 1⟩

def req5 : GetChunkRequest := ⟨10, 1, 10, .highestAvailable (some (li 3 1)) 1000⟩

/-- Concrete state for the amended highest-available claim: a request with
something to subscribe for under the default configuration. -/
def st5s : CoordState := baseState ⟨li 5 1, 5, 1⟩

/-- Concrete pending queue for the PendingLedgerInfos claims. -/
def pend6 : PendingLedgerInfos :=
  ⟨[(5, li 5 1), (12, li 12 1), (20, li 20 1)], 10, some (li 20 1)⟩

def ss6 : SynchronizerState := ⟨li 10 1, 10, 1⟩

/-- Concrete inputs for the empty-chunk claim. -/
def st8c : CoordState := baseState ⟨li 100 1, 100, 1⟩

def env8 : Env := allOkEnv ⟨li 100 1, 100, 1⟩

def resp8 : GetChunkResponse := ⟨.verifiableLedgerInfo (li 120 1), ⟨none, []⟩⟩

/-- Concrete inputs for the waypoint-underflow claim: both request
preconditions hold (local 5 at least waypoint 5, known 4 below 5) but the
epoch proof for the request epoch ends at version 2, below known version 4. -/
def st9c : CoordState := baseState ⟨⟨5, 3, true, 0, 0⟩, 5, 3⟩

def env9 : Env :=
  { allOkEnv ⟨⟨5, 3, true, 0, 0⟩, 5, 3⟩ with
    get_epoch_ending_ledger_info := fun _ => .ok ⟨5, 3, true, 0, 0⟩,
    get_epoch_proof := fun _ => .ok ⟨2, 0, true, 0, 0⟩ }

def req9 : GetChunkRequest := ⟨4, 0, 10, .waypoint 5⟩

/-- Concrete inputs for the progressive-no-highest claim. -/
def st10c : CoordState := baseState ⟨li 100 1, 100, 1⟩

def env10 : Env := allOkEnv ⟨li 150 1, 150, 1⟩

def txl10 : TransactionListWithProof := ⟨some 101, [.other]⟩

/-! Helper lemmas shared by the claim proofs. -/

theorem qInsert_length_le (k : Nat) (v : LedgerInfo) (l : List (Nat × LedgerInfo)) :
    (qInsert k v l).length ≤ l.length + 1 := by
  induction l with
  | nil => simp [qInsert]
  | cons a t ih =>
    simp only [qInsert]
    split
    · simp
    · split
      · simp
      · simpa using Nat.succ_le_succ ih

theorem send_chunk_request_effects_shape (env : Env) (st : CoordState)
    (kv ke : Nat) :
    (send_chunk_request env st kv ke).2 = [] ∨
    ∃ r, (send_chunk_request env st kv ke).2 = [Effect.sendChunkReq r] := by
  unfold send_chunk_request
  split
  · exact .inl rfl
  · dsimp only
    split
    · exact .inl rfl
    · exact .inr ⟨_, rfl⟩

theorem deliver_chunk_effects_shape (env : Env) (peer kv : Nat)
    (rli : ResponseLedgerInfo) (limit : Nat) :
    (deliver_chunk env peer kv rli limit).2 = [] ∨
    ∃ pr r, (deliver_chunk env peer kv rli limit).2 = [Effect.deliverChunk pr r] := by
  unfold deliver_chunk
  split
  · exact .inl rfl
  · exact .inr ⟨_, _, rfl⟩

theorem deliver_subscription_effects_shape (env : Env) (st : CoordState)
    (peer : Nat) (info : PendingRequestInfo) :
    (deliver_subscription env st peer info).2 = [] ∨
    ∃ pr r, (deliver_subscription env st peer info).2 = [Effect.deliverChunk pr r] := by
  unfold deliver_subscription
  split
  · exact .inl rfl
  · exact deliver_chunk_effects_shape ..

theorem check_subscriptions_effects (env : Env) (st : CoordState) (now : Nat) :
    ∀ x ∈ (check_subscriptions env st now).2, ∃ pr r, x = Effect.deliverChunk pr r := by
  intro x hx
  unfold check_subscriptions at hx
  simp only [List.mem_flatten, List.mem_map] at hx
  obtain ⟨l, ⟨e, he, hl⟩, hxl⟩ := hx
  rcases deliver_subscription_effects_shape env st e.1 e.2 with h | ⟨pr, r, h⟩
  · rw [← hl, h] at hxl
    cases hxl
  · rw [← hl, h] at hxl
    simp only [List.mem_singleton] at hxl
    exact ⟨pr, r, hxl⟩

theorem check_subscriptions_sync_request (env : Env) (st : CoordState) (now : Nat) :
    (check_subscriptions env st now).1.sync_request = st.sync_request := rfl

theorem check_subscriptions_local_state (env : Env) (st : CoordState) (now : Nat) :
    (check_subscriptions env st now).1.local_state = st.local_state := rfl

theorem countP_eq_zero_of_all {p : Effect → Bool} {l : List Effect}
    (h : ∀ x ∈ l, p x = false) : l.countP p = 0 := by
  rw [List.countP_eq_zero]
  intro a ha
  simp [h a ha]

theorem qSorted_tail {a : Nat × LedgerInfo} {t : List (Nat × LedgerInfo)}
    (h : qSorted (a :: t) = true) : qSorted t = true := by
  cases t with
  | nil => rfl
  | cons b r =>
    have h2 : (decide (a.1 < b.1) && qSorted (b :: r)) = true := h
    exact (Bool.and_eq_true_iff.mp h2).2

theorem qSorted_head_lt {a : Nat × LedgerInfo} {t : List (Nat × LedgerInfo)}
    (h : qSorted (a :: t) = true) : ∀ y ∈ t, a.1 < y.1 := by
  induction t generalizing a with
  | nil => simp
  | cons b r ih =>
    have h2 : (decide (a.1 < b.1) && qSorted (b :: r)) = true := h
    obtain ⟨hab, hbr⟩ := Bool.and_eq_true_iff.mp h2
    have hab : a.1 < b.1 := of_decide_eq_true hab
    intro y hy
    rcases List.mem_cons.mp hy with rfl | hy
    · exact hab
    · exact Nat.lt_trans hab (ih hbr y hy)

theorem qSorted_cons_of {a : Nat × LedgerInfo} {t : List (Nat × LedgerInfo)}
    (ht : qSorted t = true) (hlt : ∀ y ∈ t, a.1 < y.1) : qSorted (a :: t) = true := by
  cases t with
  | nil => rfl
  | cons b r =>
    show (decide (a.1 < b.1) && qSorted (b :: r)) = true
    rw [ht, decide_eq_true (hlt b (List.mem_cons_self b r))]
    rfl

theorem qSorted_filter (p : Nat × LedgerInfo → Bool) :
    ∀ l : List (Nat × LedgerInfo), qSorted l = true → qSorted (l.filter p) = true := by
  intro l
  induction l with
  | nil => intro _; rfl
  | cons a t ih =>
    intro h
    have ht := qSorted_tail h
    have hlt := qSorted_head_lt h
    by_cases hp : p a = true
    · rw [List.filter_cons_of_pos hp]
      exact qSorted_cons_of (ih ht) (fun y hy => hlt y (List.mem_of_mem_filter hy))
    · rw [List.filter_cons_of_neg (by simpa using hp)]
      exact ih ht

theorem mem_of_getLast?_eq {α : Type} : ∀ {l : List α} {x : α}, l.getLast? = some x → x ∈ l := by
  intro l
  induction l with
  | nil => intro x h; cases h
  | cons a t ih =>
    intro x h
    cases t with
    | nil =>
      have : x = a := by simpa [List.getLast?_singleton] using h.symm
      simp [this]
    | cons b r =>
      rw [List.getLast?_cons_cons] at h
      exact List.mem_cons_of_mem a (ih h)

theorem getLast?_isSome_of_ne_nil {α : Type} :
    ∀ {l : List α}, l ≠ [] → ∃ x, l.getLast? = some x := by
  intro l
  induction l with
  | nil => intro h; exact absurd rfl h
  | cons a t ih =>
    intro _
    cases t with
    | nil => exact ⟨a, rfl⟩
    | cons b r =>
      obtain ⟨x, hx⟩ := ih (List.cons_ne_nil b r)
      exact ⟨x, by rw [List.getLast?_cons_cons]; exact hx⟩

theorem qSorted_getLast?_max :
    ∀ {l : List (Nat × LedgerInfo)}, qSorted l = true →
      ∀ {x : Nat × LedgerInfo}, l.getLast? = some x → ∀ y ∈ l, y.1 ≤ x.1 := by
  intro l
  induction l with
  | nil => intro _ x h; cases h
  | cons a t ih =>
    intro hs x hx y hy
    cases t with
    | nil =>
      have hxa : x = a := by simpa [List.getLast?_singleton] using hx.symm
      have hya : y = a := by simpa using hy
      simp [hxa, hya]
    | cons b r =>
      rw [List.getLast?_cons_cons] at hx
      rcases List.mem_cons.mp hy with rfl | hy
      · have hb : b.1 ≤ x.1 :=
          ih (qSorted_tail hs) hx b (List.mem_cons_self b r)
        exact Nat.le_of_lt (Nat.lt_of_lt_of_le
          (qSorted_head_lt hs b (List.mem_cons_self b r)) hb)
      · exact ih (qSorted_tail hs) hx y hy

theorem mem_of_head?_eq {α : Type} {l : List α} {x : α} (h : l.head? = some x) : x ∈ l := by
  cases l with
  | nil => cases h
  | cons a t =>
    have : x = a := by simpa using h.symm
    simp [this]

theorem qSorted_head?_min {l : List (Nat × LedgerInfo)} (hs : qSorted l = true)
    {x : Nat × LedgerInfo} (h : l.head? = some x) : ∀ y ∈ l, x.1 ≤ y.1 := by
  cases l with
  | nil => cases h
  | cons a t =>
    have hxa : x = a := by simpa using h.symm
    subst hxa
    intro y hy
    rcases List.mem_cons.mp hy with rfl | hy
    · exact Nat.le_refl _
    · exact Nat.le_of_lt (qSorted_head_lt hs y hy)

/-- C3: whenever the response target (epoch, version) is lexicographically at
most the local committed (epoch, version), validate_and_store_chunk returns
success without invoking execute_chunk and leaves the coordinator state
unchanged; otherwise it invokes execute_chunk on the chunk. -/
theorem validate_and_store_chunk_stale_is_noop (env : Env) (st : CoordState)
    (txl : TransactionListWithProof) (target : LedgerInfo) (inter : Option LedgerInfo) :
    (validate_and_store_chunk env st txl target inter).state = st ∧
    ((target.epoch < st.local_state.highest_local_li.epoch ∨
      (target.epoch = st.local_state.highest_local_li.epoch ∧
       target.version ≤ st.local_state.highest_local_li.version)) →
      (validate_and_store_chunk env st txl target inter).result = .ok () ∧
      (validate_and_store_chunk env st txl target inter).effects = []) ∧
    (¬ (target.epoch < st.local_state.highest_local_li.epoch ∨
        (target.epoch = st.local_state.highest_local_li.epoch ∧
         target.version ≤ st.local_state.highest_local_li.version)) →
      (validate_and_store_chunk env st txl target inter).effects =
        [Effect.executeChunk txl target inter]) := by
  simp only [validate_and_store_chunk]
  split
  case isTrue h => exact ⟨rfl, fun _ => ⟨rfl, rfl⟩, fun hn => absurd h hn⟩
  case isFalse h => exact ⟨rfl, fun hc => absurd hc h, fun _ => rfl⟩

/-- Witness for C3 at a concrete stale response: local committed
(epoch 2, version 300), target (epoch 2, version 250). -/
theorem validate_and_store_chunk_stale_is_noop_witness :
    (validate_and_store_chunk env3 st3c ⟨none, []⟩ (li 250 2) none).result = .ok () ∧
    (validate_and_store_chunk env3 st3c ⟨none, []⟩ (li 250 2) none).effects = [] :=
  (validate_and_store_chunk_stale_is_noop env3 st3c ⟨none, []⟩ (li 250 2) none).2.1
    (Or.inr ⟨by decide, by decide⟩)

/-- C8: an empty chunk (no first transaction version) from a known upstream
peer makes apply_chunk record exactly the EmptyChunk peer-score penalty,
return an error, and leave the coordinator state untouched; in particular
the executor is never invoked. -/
theorem apply_chunk_empty_chunk (env : Env) (st : CoordState) (peer : Nat)
    (response : GetChunkResponse)
    (hup : env.is_known_upstream_peer peer = true)
    (hempty : response.txn_list_with_proof.first_transaction_version = none) :
    apply_chunk env st peer response =
      ⟨.error .emptyChunk, st, [Effect.updateScore peer .emptyChunk]⟩ := by
  simp [apply_chunk, hup, hempty]

/-- Witness for C8 at a concrete empty response. -/
theorem apply_chunk_empty_chunk_witness :
    apply_chunk env8 st8c 3 resp8 =
      ⟨.error .emptyChunk, st8c, [Effect.updateScore 3 .emptyChunk]⟩ :=
  apply_chunk_empty_chunk env8 st8c 3 resp8 rfl rfl

/-- C4: with at least one available peer, send_chunk_request targets the
waypoint when not initialized, the highest available LI (with the pending
target and the long-poll timeout) when initialized with no sync request,
and with a sync request present is a no-op success when the target version
is at most known_version and otherwise targets the sync-request LI. -/
theorem send_chunk_request_target_choice (env : Env) (st : CoordState)
    (known_version known_epoch : Nat)
    (hpeers : env.no_available_peers = false) :
    (is_initialized st = false →
      send_chunk_request env st known_version known_epoch =
        ((if env.rm_send_ok then .ok () else .error .sendFail),
         [Effect.sendChunkReq ⟨known_version, known_epoch, st.config.chunk_limit,
            .waypoint st.waypoint.version⟩])) ∧
    (is_initialized st = true → st.sync_request = none →
      send_chunk_request env st known_version known_epoch =
        ((if env.rm_send_ok then .ok () else .error .sendFail),
         [Effect.sendChunkReq ⟨known_version, known_epoch, st.config.chunk_limit,
            .highestAvailable st.pending_ledger_infos.target_li
              st.config.long_poll_timeout_ms⟩])) ∧
    (∀ sync_req, is_initialized st = true → st.sync_request = some sync_req →
      (sync_req.target.version ≤ known_version →
        send_chunk_request env st known_version known_epoch = (.ok (), [])) ∧
      (known_version < sync_req.target.version →
        send_chunk_request env st known_version known_epoch =
          ((if env.rm_send_ok then .ok () else .error .sendFail),
           [Effect.sendChunkReq ⟨known_version, known_epoch, st.config.chunk_limit,
              .targetLedgerInfo sync_req.target⟩]))) := by
  refine ⟨?_, ?_, ?_⟩
  · intro h
    simp [send_chunk_request, hpeers, h]
  · intro hi hs
    simp [send_chunk_request, hpeers, hi, hs]
  · intro sync_req hi hs
    constructor
    · intro hle
      simp [send_chunk_request, hpeers, hi, hs, hle]
    · intro hlt
      have hnle : ¬ sync_req.target.version ≤ known_version := by omega
      simp [send_chunk_request, hpeers, hi, hs, hnle]

/-- Witness for C4: an uninitialized node (waypoint 100, committed 50)
requests a Waypoint-target chunk. -/
theorem send_chunk_request_target_choice_witness :
    send_chunk_request env4 st4c 50 1 =
      (.ok (), [Effect.sendChunkReq ⟨50, 1, 50, .waypoint 100⟩]) :=
  ((send_chunk_request_target_choice env4 st4c 50 1 rfl).1 (by decide)).trans rfl

/-- C6: after PendingLedgerInfos.update every key in the queue is strictly
above the committed version of the given sync state, update preserves the
size bound, add_li never grows the queue past max_pending_li_limit, and the
chosen target_li (when set) is one of the queue values. -/
theorem pending_ledger_infos_invariants (p : PendingLedgerInfos)
    (ss : SynchronizerState) (chunk_limit : Nat) :
    (∀ e ∈ (p.update ss chunk_limit).pending_li_queue,
       ss.highest_local_li.version < e.1) ∧
    (p.pending_li_queue.length ≤ p.max_pending_li_limit →
      (p.update ss chunk_limit).pending_li_queue.length ≤ p.max_pending_li_limit) ∧
    (∀ (q : PendingLedgerInfos) (new_li : LedgerInfo),
      q.pending_li_queue.length ≤ q.max_pending_li_limit →
      (q.add_li new_li).pending_li_queue.length ≤ q.max_pending_li_limit) ∧
    (∀ tli, (p.update ss chunk_limit).target_li = some tli →
      ∃ e ∈ (p.update ss chunk_limit).pending_li_queue, e.2 = tli) := by
  refine ⟨?_, ?_, ?_, ?_⟩
  · intro e he
    simp only [PendingLedgerInfos.update, List.mem_filter, decide_eq_true_eq] at he
    omega
  · intro h
    simp only [PendingLedgerInfos.update]
    exact Nat.le_trans (List.length_filter_le _ _) h
  · intro q new_li h
    unfold PendingLedgerInfos.add_li
    split
    · exact h
    case isFalse hcap =>
      dsimp only
      split
      · have hlen := qInsert_length_le new_li.version new_li q.pending_li_queue
        have : q.pending_li_queue.length < q.max_pending_li_limit := by omega
        simpa using Nat.le_trans hlen (by omega)
      · exact h
  · intro tli ht
    simp only [PendingLedgerInfos.update] at ht ⊢
    split at ht
    · rcases Option.map_eq_some'.mp ht with ⟨e, he, rfl⟩
      have hmem := mem_of_getLast?_eq he
      exact ⟨e, List.mem_of_mem_filter hmem, rfl⟩
    · rcases Option.map_eq_some'.mp ht with ⟨e, he, rfl⟩
      exact ⟨e, mem_of_head?_eq he, rfl⟩

/-- Witness for C6: the concrete queue is pruned to keys above 10 and stays
within the bound. -/
theorem pending_ledger_infos_invariants_witness :
    (pend6.update ss6 5).pending_li_queue.length ≤ pend6.max_pending_li_limit ∧
    ∀ e ∈ (pend6.update ss6 5).pending_li_queue, ss6.highest_local_li.version < e.1 :=
  ⟨(pending_ledger_infos_invariants pend6 ss6 5).2.1 (by decide),
   (pending_ledger_infos_invariants pend6 ss6 5).1⟩

theorem head?_isSome_of_ne_nil {α : Type} {l : List α} (h : l ≠ []) :
    ∃ x, l.head? = some x := by
  cases l with
  | nil => exact absurd rfl h
  | cons a t => exact ⟨a, rfl⟩

/-- C7: after PendingLedgerInfos.update (queues pruned), the chosen target_li
is the pending LI of greatest version at most synced + chunk_limit when the
committed and synced versions agree (none when no such entry), the pending
LI of least version otherwise, and none whenever the queue is empty. -/
theorem pending_update_target_selection (p : PendingLedgerInfos)
    (ss : SynchronizerState) (chunk_limit : Nat)
    (hs : qSorted p.pending_li_queue = true) :
    ((p.update ss chunk_limit).pending_li_queue = [] →
      (p.update ss chunk_limit).target_li = none) ∧
    (ss.highest_local_li.version = ss.highest_version_in_local_storage →
      ((∀ e ∈ (p.update ss chunk_limit).pending_li_queue,
          ¬ e.1 ≤ ss.highest_version_in_local_storage + chunk_limit) →
        (p.update ss chunk_limit).target_li = none) ∧
      (∀ tli, (p.update ss chunk_limit).target_li = some tli →
        ∃ e ∈ (p.update ss chunk_limit).pending_li_queue, e.2 = tli ∧
          e.1 ≤ ss.highest_version_in_local_storage + chunk_limit ∧
          ∀ e2 ∈ (p.update ss chunk_limit).pending_li_queue,
            e2.1 ≤ ss.highest_version_in_local_storage + chunk_limit → e2.1 ≤ e.1) ∧
      ((∃ e ∈ (p.update ss chunk_limit).pending_li_queue,
          e.1 ≤ ss.highest_version_in_local_storage + chunk_limit) →
        ∃ tli, (p.update ss chunk_limit).target_li = some tli)) ∧
    (ss.highest_local_li.version ≠ ss.highest_version_in_local_storage →
      (∀ tli, (p.update ss chunk_limit).target_li = some tli →
        ∃ e ∈ (p.update ss chunk_limit).pending_li_queue, e.2 = tli ∧
          ∀ e2 ∈ (p.update ss chunk_limit).pending_li_queue, e.1 ≤ e2.1) ∧
      ((p.update ss chunk_limit).pending_li_queue ≠ [] →
        ∃ tli, (p.update ss chunk_limit).target_li = some tli)) := by
  have hqF : qSorted
      (p.pending_li_queue.filter
        (fun e => decide (ss.highest_local_li.version + 1 ≤ e.1))) = true :=
    qSorted_filter _ _ hs
  refine ⟨?_, ?_, ?_⟩
  · intro hnil
    simp only [PendingLedgerInfos.update] at hnil ⊢
    rw [hnil]
    split <;> simp
  · intro hcs
    refine ⟨?_, ?_, ?_⟩
    · intro hnone
      simp only [PendingLedgerInfos.update] at hnone ⊢
      rw [if_pos hcs]
      have hfe : (p.pending_li_queue.filter
          (fun e => decide (ss.highest_local_li.version + 1 ≤ e.1))).filter
            (fun e => decide (e.1 ≤ ss.highest_version_in_local_storage + chunk_limit)) = [] := by
        rw [List.filter_eq_nil_iff]
        intro e he
        simpa using hnone e he
      rw [hfe]
      simp
    · intro tli ht
      simp only [PendingLedgerInfos.update] at ht ⊢
      rw [if_pos hcs] at ht
      rcases Option.map_eq_some'.mp ht with ⟨e, he, rfl⟩
      have hmem2 := mem_of_getLast?_eq he
      have hmemF := List.mem_of_mem_filter hmem2
      have hbnd : e.1 ≤ ss.highest_version_in_local_storage + chunk_limit := by
        have := (List.mem_filter.mp hmem2).2
        simpa using this
      refine ⟨e, hmemF, rfl, hbnd, ?_⟩
      intro e2 h2 hb2
      have h2f : e2 ∈ (p.pending_li_queue.filter
          (fun e => decide (ss.highest_local_li.version + 1 ≤ e.1))).filter
            (fun e => decide (e.1 ≤ ss.highest_version_in_local_storage + chunk_limit)) :=
        List.mem_filter.mpr ⟨h2, by simpa using hb2⟩
      exact qSorted_getLast?_max (qSorted_filter _ _ hqF) he e2 h2f
    · intro hex
      obtain ⟨e, he, hb⟩ := hex
      simp only [PendingLedgerInfos.update] at he ⊢
      rw [if_pos hcs]
      have hmem : e ∈ (p.pending_li_queue.filter
          (fun e => decide (ss.highest_local_li.version + 1 ≤ e.1))).filter
            (fun e => decide (e.1 ≤ ss.highest_version_in_local_storage + chunk_limit)) :=
        List.mem_filter.mpr ⟨he, by simpa using hb⟩
      obtain ⟨x, hx⟩ := getLast?_isSome_of_ne_nil (List.ne_nil_of_mem hmem)
      exact ⟨x.2, by rw [hx]; rfl⟩
  · intro hcs
    refine ⟨?_, ?_⟩
    · intro tli ht
      simp only [PendingLedgerInfos.update] at ht ⊢
      rw [if_neg hcs] at ht
      rcases Option.map_eq_some'.mp ht with ⟨e, he, rfl⟩
      exact ⟨e, mem_of_head?_eq he, rfl, fun e2 h2 => qSorted_head?_min hqF he e2 h2⟩
    · intro hne
      simp only [PendingLedgerInfos.update] at hne ⊢
      rw [if_neg hcs]
      obtain ⟨x, hx⟩ := head?_isSome_of_ne_nil hne
      exact ⟨x.2, by rw [hx]; rfl⟩

/-- Witness for C7 at the concrete queue: caught-up selection picks the
highest pending LI reachable in one chunk (version 12 under bound 15). -/
theorem pending_update_target_selection_witness :
    ∃ e ∈ (pend6.update ss6 5).pending_li_queue, e.2 = li 12 1 ∧
      e.1 ≤ ss6.highest_version_in_local_storage + 5 ∧
      ∀ e2 ∈ (pend6.update ss6 5).pending_li_queue,
        e2.1 ≤ ss6.highest_version_in_local_storage + 5 → e2.1 ≤ e.1 :=
  ((pending_update_target_selection pend6 ss6 5 (by decide)).2.1 (by decide)).2.1
    (li 12 1) (by decide)

/-- C5 (amended): an incoming HighestAvailable request is stored in the
subscription table with expiration now + min(timeout_ms, max_timeout_ms)
and no response when the local committed version is at most known_version
and the clamped timeout min(timeout_ms, max_timeout_ms) is positive;
otherwise a ProgressiveLedgerInfo response is delivered immediately whose
highest_li is the local committed LI exactly when the chosen target version
is below the local committed version and the target epoch equals the local
epoch, and is omitted otherwise. -/
theorem process_request_highest_available_spec (env : Env) (st : CoordState)
    (peer : Nat) (request : GetChunkRequest) (target_li : Option LedgerInfo)
    (timeout_ms now : Nat) (o : Outcome)
    (ho : process_request_highest_available env st peer request target_li timeout_ms now = o) :
    ((st.local_state.highest_local_li.version ≤ request.known_version ∧
      0 < min timeout_ms st.config.max_timeout_ms) →
      o.result = .ok () ∧ o.effects = [] ∧
      o.state = { st with
        subscriptions := subInsert peer
          ⟨now + min timeout_ms st.config.max_timeout_ms, request.known_version,
            request.current_epoch, min request.limit st.config.max_chunk_limit⟩
          st.subscriptions }) ∧
    (¬ (st.local_state.highest_local_li.version ≤ request.known_version ∧
        0 < min timeout_ms st.config.max_timeout_ms) →
      o.state = st ∧
      ∀ chosen txns,
        choose_response_li env st request.current_epoch target_li = .ok chosen →
        env.get_chunk request.known_version (min request.limit st.config.max_chunk_limit)
          (ResponseLedgerInfo.progressiveLedgerInfo chosen
            (if chosen.version < st.local_state.highest_local_li.version ∧
                chosen.epoch = st.local_state.epoch
             then some st.local_state.highest_local_li else none)).version = .ok txns →
        o.effects = [Effect.deliverChunk peer
          ⟨.progressiveLedgerInfo chosen
             (if chosen.version < st.local_state.highest_local_li.version ∧
                 chosen.epoch = st.local_state.epoch
              then some st.local_state.highest_local_li else none), txns⟩] ∧
        (env.network_send_ok peer = true → o.result = .ok ())) := by
  subst ho
  simp only [process_request_highest_available]
  split
  case isTrue h => exact ⟨fun _ => ⟨rfl, rfl, rfl⟩, fun hn => absurd h hn⟩
  case isFalse h =>
    refine ⟨fun hc => absurd hc h, fun _ => ⟨?_, ?_⟩⟩
    · split
      · rfl
      · rfl
    · intro chosen txns hch hgc
      rw [hch]
      dsimp only
      unfold deliver_chunk
      rw [hgc]
      refine ⟨rfl, fun hsend => ?_⟩
      simp [hsend]

/-- Witness for C5 (amended) at a concrete subscribable request under the
default configuration. -/
theorem process_request_highest_available_spec_witness :
    (process_request_highest_available env5 st5s 1 req5 (some (li 3 1)) 1000 0).state =
      { st5s with subscriptions := subInsert 1 ⟨1000, 10, 1, 10⟩ st5s.subscriptions } :=
  ((process_request_highest_available_spec env5 st5s 1 req5 (some (li 3 1)) 1000 0 _
      rfl).1 (by decide)).2.2.trans rfl

/-- C5 counterexample: with max_timeout_ms = 0 the code delivers immediately
even though timeout_ms = 1000 is positive and there is nothing to serve
(local committed 5, known_version 10): no subscription is stored and a
response effect is emitted, contradicting the claim as stated. -/
theorem process_request_highest_available_cex :
    st5c.local_state.highest_local_li.version ≤ req5.known_version ∧
    0 < (1000 : Nat) ∧
    (process_request_highest_available env5 st5c 1 req5 (some (li 3 1)) 1000 0).state.subscriptions
      = st5c.subscriptions ∧
    (process_request_highest_available env5 st5c 1 req5 (some (li 3 1)) 1000 0).effects ≠ [] := by
  decide

/-- C2 (amended): request_sync refreshes local state and fails when the node
is not initialized; the version comparisons are made against the committed
version read at entry, before the refresh (the code binds local_li_version
first): if the target equals it, the callback fires with success and nothing
is installed; if the target is strictly below it, the callback fires with an
error, the call fails, and nothing is installed; otherwise the request is
installed as the current sync_request. -/
theorem request_sync_spec (env : Env) (st : CoordState) (request : SyncRequest)
    (o : Outcome) (ho : request_sync env st request = o) :
    (env.storage_state = .error () → o.result = .error .storage ∧ o.state = st) ∧
    (∀ ns, env.storage_state = .ok ns →
      (¬ st.waypoint.version ≤ ns.highest_local_li.version →
        o.result = .error .notInitialized ∧ o.state.sync_request = st.sync_request) ∧
      (st.waypoint.version ≤ ns.highest_local_li.version →
        (request.target.version = st.local_state.highest_local_li.version →
          o.state.sync_request = st.sync_request ∧
          o.effects = [Effect.fireSyncCallback true] ∧
          (env.sync_callback_send_ok = true → o.result = .ok ())) ∧
        (request.target.version < st.local_state.highest_local_li.version →
          o.state.sync_request = st.sync_request ∧
          o.effects = [Effect.fireSyncCallback false] ∧
          ∃ e, o.result = .error e) ∧
        (st.local_state.highest_local_li.version < request.target.version →
          o.state.sync_request = some request ∧
          o.effects.countP isFireSync = 0))) := by
  subst ho
  unfold request_sync sync_state_with_local_storage
  cases henv : env.storage_state with
  | error u =>
    exact ⟨fun _ => ⟨rfl, rfl⟩, fun ns hns => Except.noConfusion hns⟩
  | ok ns =>
    dsimp only
    refine ⟨fun hc => Except.noConfusion hc, fun ns2 hns2 => ?_⟩
    · injection hns2 with hns2
      subst hns2
      constructor
      · intro hni
        rw [if_pos (by simpa [is_initialized] using hni)]
        exact ⟨rfl, rfl⟩
      · intro hinit
        rw [if_neg (show ¬ ¬ is_initialized
            { st with
              local_state := ns,
              pending_ledger_infos :=
                st.pending_ledger_infos.update ns st.config.chunk_limit } = true by
          simpa [is_initialized] using hinit)]
        refine ⟨?_, ?_, ?_⟩
        · intro heq
          rw [if_pos heq]
          exact ⟨rfl, rfl, fun hcb => by simp [hcb]⟩
        · intro hlt
          have hne : request.target.version ≠ st.local_state.highest_local_li.version := by
            omega
          rw [if_neg hne, if_pos hlt]
          exact ⟨rfl, rfl, _, rfl⟩
        · intro hgt
          have hne : request.target.version ≠ st.local_state.highest_local_li.version := by
            omega
          have hnlt : ¬ request.target.version < st.local_state.highest_local_li.version := by
            omega
          rw [if_neg hne, if_neg hnlt]
          refine ⟨rfl, ?_⟩
          rcases send_chunk_request_effects_shape env
              { st with
                local_state := ns,
                pending_ledger_infos :=
                  st.pending_ledger_infos.update ns st.config.chunk_limit,
                sync_request := some request }
              ns.highest_version_in_local_storage ns.epoch with h | ⟨r, h⟩ <;>
            simp [h, isFireSync]

/-- Witness for C2 (amended): a target above the entry committed version is
installed as the current sync request. -/
theorem request_sync_spec_witness :
    (request_sync env2 st2c req2).state.sync_request = some req2 :=
  ((((request_sync_spec env2 st2c req2 _ rfl).2 ⟨li 250 1, 250, 1⟩ rfl).2
      (by decide)).2.2 (by decide)).1

/-- C2 counterexample: the cached committed version is 100 but storage has
advanced to 250 and the client requests exactly 250. After the refresh the
local committed version equals the target, yet request_sync returns success
with the request installed and no callback fired, because the code compares
against the pre-refresh version 100; the claim as stated (comparison against
the refreshed committed version) predicts a success callback and no
installation. -/
theorem request_sync_stale_comparison_cex :
    (request_sync env2 st2c req2).state.local_state.highest_local_li.version =
      req2.target.version ∧
    (request_sync env2 st2c req2).result = .ok () ∧
    (request_sync env2 st2c req2).state.sync_request = some req2 ∧
    (request_sync env2 st2c req2).effects = [] := by
  refine ⟨by decide, rfl, by decide, by decide⟩

theorem deliver_chunk_result_shape (env : Env) (peer kv : Nat)
    (rli : ResponseLedgerInfo) (limit : Nat) :
    (deliver_chunk env peer kv rli limit).1 = .ok () ∨
    (deliver_chunk env peer kv rli limit).1 = .error .getChunkFail ∨
    (deliver_chunk env peer kv rli limit).1 = .error .sendFail := by
  unfold deliver_chunk
  split
  · exact .inr (.inl rfl)
  · dsimp only
    split
    · exact .inl rfl
    · exact .inr (.inr rfl)

/-- C9: in process_request_waypoint the u64 subtraction
end_of_epoch_li.version - known_version is underflow-free exactly when the
epoch proof returned for the request epoch has version at least the request
known_version; the two request preconditions alone do not force this: the
concrete instance satisfies both preconditions yet underflows. -/
theorem process_request_waypoint_underflow :
    (∀ (env : Env) (st : CoordState) (peer : Nat) (request : GetChunkRequest)
       (waypoint_version : Nat) (end_li : LedgerInfo),
       env.get_epoch_proof request.current_epoch = .ok end_li →
       request.known_version ≤ end_li.version →
       (process_request_waypoint env st peer request waypoint_version).result ≠
         .error .u64Underflow) ∧
    (∀ (env : Env) (st : CoordState) (peer : Nat) (request : GetChunkRequest)
       (waypoint_version : Nat) (waypoint_li end_li : LedgerInfo),
       waypoint_version ≤ st.local_state.highest_local_li.version →
       request.known_version < waypoint_version →
       env.get_epoch_ending_ledger_info waypoint_version = .ok waypoint_li →
       request.current_epoch < waypoint_li.epoch →
       env.get_epoch_proof request.current_epoch = .ok end_li →
       end_li.version < request.known_version →
       (process_request_waypoint env st peer request waypoint_version).result =
         .error .u64Underflow) ∧
    ((5 : Nat) ≤ st9c.local_state.highest_local_li.version ∧
      req9.known_version < 5 ∧
      (process_request_waypoint env9 st9c 1 req9 5).result = .error .u64Underflow) := by
  refine ⟨?_, ?_, by decide, by decide, rfl⟩
  · intro env st peer request waypoint_version end_li hep hle
    unfold process_request_waypoint
    dsimp only
    split
    · simp
    · split
      · simp
      · split
        · simp
        case h_2 _ waypoint_li heq =>
          split
          · split
            case h_1 _ e heq2 => simp
            case h_2 _ x heq2 =>
              rw [hep] at heq2
              injection heq2 with heq2
              subst heq2
              split
              case isTrue hlt => omega
              case isFalse hlt =>
                rcases deliver_chunk_result_shape env peer request.known_version
                    (.ledgerInfoForWaypoint waypoint_li (some end_li))
                    (min (min request.limit st.config.max_chunk_limit)
                      (end_li.version - request.known_version)) with h | h | h <;>
                  rw [h] <;> simp
          · rcases deliver_chunk_result_shape env peer request.known_version
                (.ledgerInfoForWaypoint waypoint_li none)
                (min request.limit st.config.max_chunk_limit) with h | h | h <;>
              rw [h] <;> simp
  · intro env st peer request waypoint_version waypoint_li end_li hwv hkv hgele hepoch hep hlt
    unfold process_request_waypoint
    rw [if_neg (by omega), if_neg (by omega), hgele]
    dsimp only
    rw [if_pos (by exact hepoch), hep]
    dsimp only
    rw [if_pos hlt]

/-- Witness for C9: the same environment with a known_version at most the
epoch-proof version does not underflow. -/
theorem process_request_waypoint_underflow_witness :
    (process_request_waypoint env9 st9c 1 ⟨1, 0, 10, .waypoint 5⟩ 5).result ≠
      .error .u64Underflow :=
  process_request_waypoint_underflow.1 env9 st9c 1 ⟨1, 0, 10, .waypoint 5⟩ 5
    ⟨2, 0, true, 0, 0⟩ rfl (by decide)

theorem validate_and_store_chunk_effects_shape (env : Env) (st : CoordState)
    (txl : TransactionListWithProof) (target : LedgerInfo) (inter : Option LedgerInfo) :
    (validate_and_store_chunk env st txl target inter).effects = [] ∨
    (validate_and_store_chunk env st txl target inter).effects =
      [Effect.executeChunk txl target inter] := by
  simp only [validate_and_store_chunk]
  split
  · exact .inl rfl
  · exact .inr rfl

/-- C10: a ProgressiveLedgerInfo response with highest_li absent substitutes
target_li for it, so the ordering check passes trivially and the dispatch is
exactly process_response_with_verifiable_li with pending = target_li; that
call adds target_li to PendingLedgerInfos after a single verifier call: the
pending LI is not verified a second time because it equals the response LI. -/
theorem apply_chunk_progressive_without_highest (env : Env) (st : CoordState)
    (peer : Nat) (txl : TransactionListWithProof) (target_li : LedgerInfo)
    (hup : env.is_known_upstream_peer peer = true)
    (hstart : txl.first_transaction_version =
      some (st.local_state.highest_version_in_local_storage + 1)) :
    (apply_chunk env st peer ⟨.progressiveLedgerInfo target_li none, txl⟩).state =
      (process_response_with_verifiable_li env st txl target_li (some target_li)).state ∧
    ((apply_chunk env st peer ⟨.progressiveLedgerInfo target_li none, txl⟩).result =
        .ok () ↔
      (process_response_with_verifiable_li env st txl target_li
        (some target_li)).result = .ok ()) ∧
    (is_initialized st = true →
     (∀ sync_req, st.sync_request = some sync_req →
        target_li.version ≤ sync_req.target.version) →
     env.verify_ok target_li = true →
       Effect.addPendingLI target_li ∈
         (process_response_with_verifiable_li env st txl target_li
           (some target_li)).effects ∧
       (process_response_with_verifiable_li env st txl target_li
         (some target_li)).effects.countP isVerifyEff = 1) := by
  have hdispatch :
      apply_chunk env st peer ⟨.progressiveLedgerInfo target_li none, txl⟩ =
        (match (process_response_with_verifiable_li env st txl target_li
            (some target_li)).result with
         | .error e =>
           ⟨.error e,
            (process_response_with_verifiable_li env st txl target_li
              (some target_li)).state,
            (process_response_with_verifiable_li env st txl target_li
              (some target_li)).effects ++ [Effect.updateScore peer .invalidChunk]⟩
         | .ok _ =>
           ⟨.ok (),
            (process_response_with_verifiable_li env st txl target_li
              (some target_li)).state,
            (process_response_with_verifiable_li env st txl target_li
              (some target_li)).effects⟩) := by
    simp [apply_chunk, hup, hstart]
  refine ⟨?_, ?_, ?_⟩
  · rw [hdispatch]
    cases hres : (process_response_with_verifiable_li env st txl target_li
        (some target_li)).result <;> simp
  · rw [hdispatch]
    cases hres : (process_response_with_verifiable_li env st txl target_li
        (some target_li)).result <;> simp
  · intro hinit hsync hverify
    unfold process_response_with_verifiable_li
    rw [if_neg (by simp [hinit])]
    have hcond : (match st.sync_request with
        | some sync_req => decide (sync_req.target.version < target_li.version)
        | none => false) = false := by
      cases hs : st.sync_request with
      | none => rfl
      | some sync_req =>
        simpa using Nat.not_lt.mpr (hsync sync_req hs)
    rw [if_neg (by simp [hcond])]
    dsimp only
    rw [if_neg (by simp [hverify])]
    rw [if_pos rfl]
    dsimp only
    have hv0 : (validate_and_store_chunk env
        { st with pending_ledger_infos := st.pending_ledger_infos.add_li target_li }
        txl target_li none).effects.countP isVerifyEff = 0 := by
      rcases validate_and_store_chunk_effects_shape env
          { st with pending_ledger_infos := st.pending_ledger_infos.add_li target_li }
          txl target_li none with h | h <;>
        simp [h, isVerifyEff, List.countP_cons]
    have hs0 : ∀ (st2 : CoordState) (a b : Nat),
        (send_chunk_request env st2 a b).2.countP isVerifyEff = 0 := by
      intro st2 a b
      rcases send_chunk_request_effects_shape env st2 a b with h | ⟨r, h⟩ <;>
        simp [h, isVerifyEff, List.countP_cons]
    cases hvr : (validate_and_store_chunk env
        { st with pending_ledger_infos := st.pending_ledger_infos.add_li target_li }
        txl target_li none).result with
    | error e =>
      dsimp only
      exact ⟨by simp, by simp [List.countP_cons, List.countP_append, isVerifyEff, hv0]⟩
    | ok u =>
      dsimp only
      cases hss : sync_state_with_local_storage env (validate_and_store_chunk env
          { st with pending_ledger_infos := st.pending_ledger_infos.add_li target_li }
          txl target_li none).state with
      | error u2 =>
        dsimp only
        exact ⟨by simp, by simp [List.countP_cons, List.countP_append, isVerifyEff, hv0]⟩
      | ok st2 =>
        dsimp only
        exact ⟨by simp,
          by simp [List.countP_cons, List.countP_append, isVerifyEff, hv0, hs0]⟩

/-- Witness for C10 at a concrete progressive response without highest_li. -/
theorem apply_chunk_progressive_without_highest_witness :
    Effect.addPendingLI (li 120 1) ∈
      (process_response_with_verifiable_li env10 st10c txl10 (li 120 1)
        (some (li 120 1))).effects ∧
    (process_response_with_verifiable_li env10 st10c txl10 (li 120 1)
      (some (li 120 1))).effects.countP isVerifyEff = 1 :=
  (apply_chunk_progressive_without_highest env10 st10c 2 txl10 (li 120 1) rfl rfl).2.2
    (by decide) (fun sync_req h => Option.noConfusion h) (by decide)

theorem complete_init_shape (env : Env) (st : CoordState) (effs : List Effect) :
    (complete_init env st effs).state.local_state = st.local_state ∧
    (complete_init env st effs).state.sync_request = st.sync_request ∧
    ((complete_init env st effs).result = .ok () ∨
      (complete_init env st effs).result = .error .callbackFail) ∧
    ((complete_init env st effs).effects = effs ∨
      (complete_init env st effs).effects = effs ++ [Effect.fireInitCallback true]) := by
  unfold complete_init
  split
  · refine ⟨rfl, rfl, ?_, .inr rfl⟩
    split
    · exact .inl rfl
    · exact .inr rfl
  · exact ⟨rfl, rfl, .inl rfl, .inl rfl⟩

theorem complete_init_local_state (env : Env) (st : CoordState) (effs : List Effect) :
    (complete_init env st effs).state.local_state = st.local_state := by
  unfold complete_init
  split <;> rfl

theorem complete_init_sync_request (env : Env) (st : CoordState) (effs : List Effect) :
    (complete_init env st effs).state.sync_request = st.sync_request := by
  unfold complete_init
  split <;> rfl

theorem complete_init_effects_countP (env : Env) (st : CoordState) (effs : List Effect)
    (p : Effect → Bool) (hp : p (Effect.fireInitCallback true) = false) :
    (complete_init env st effs).effects.countP p = effs.countP p := by
  unfold complete_init
  split
  · simp [List.countP_append, List.countP_cons, hp]
  · rfl

theorem complete_init_effects_mem (env : Env) (st : CoordState) (effs : List Effect)
    (x : Effect) (hx : x ∈ effs) : x ∈ (complete_init env st effs).effects := by
  unfold complete_init
  split
  · simp [hx]
  · exact hx

/-- C1: on every successful return of process_commit made while a sync
request is live, the refreshed synced version is at most the sync-request
target version (a violation makes the commit path return an error), and when
equal the sync request is removed and its callback fires exactly once with
success. -/
theorem process_commit_sync_request (env : Env) (st : CoordState)
    (transactions : List Transaction) (has_commit_callback : Bool)
    (chunk_sender : Option Nat) (now : Nat) (sync_req : SyncRequest) (o : Outcome)
    (hreq : st.sync_request = some sync_req)
    (ho : process_commit env st transactions has_commit_callback chunk_sender now = o) :
    (o.result = .ok () →
      o.state.local_state.highest_version_in_local_storage ≤ sync_req.target.version) ∧
    (∀ ns, env.storage_state = .ok ns →
      sync_req.target.version < ns.highest_version_in_local_storage →
      o.result = .error .beyondTarget) ∧
    (o.result = .ok () →
      o.state.local_state.highest_version_in_local_storage = sync_req.target.version →
      o.state.sync_request = none ∧
      o.effects.countP isFireSync = 1 ∧
      Effect.fireSyncCallback true ∈ o.effects) := by
  subst ho
  have hsub0 : ∀ (stx : CoordState) (n : Nat),
      (check_subscriptions env stx n).2.countP isFireSync = 0 := by
    intro stx n
    refine countP_eq_zero_of_all (fun x hx => ?_)
    obtain ⟨pr, r, rfl⟩ := check_subscriptions_effects env stx n x hx
    rfl
  unfold process_commit sync_state_with_local_storage
  cases henv : env.storage_state with
  | error u =>
    exact ⟨fun hok => Except.noConfusion hok, fun ns hns => Except.noConfusion hns,
      fun hok => Except.noConfusion hok⟩
  | ok ns =>
    dsimp only
    rw [show (check_subscriptions env
        { st with
          local_state := ns,
          pending_ledger_infos :=
            st.pending_ledger_infos.update ns st.config.chunk_limit } now).1.sync_request =
        some sync_req from
      (check_subscriptions_sync_request env _ now).trans hreq]
    dsimp only [Option.map]
    by_cases h1 : sync_req.target.version < ns.highest_version_in_local_storage
    · rw [if_pos h1]
      exact ⟨fun hok => Except.noConfusion hok, fun ns2 hns2 hlt => rfl,
        fun hok => Except.noConfusion hok⟩
    · rw [if_neg h1]
      by_cases h2 : sync_req.target.version = ns.highest_version_in_local_storage
      · rw [if_pos h2]
        by_cases hcb : env.sync_callback_send_ok = true
        · rw [if_pos hcb]
          refine ⟨fun hok => ?_, fun ns2 hns2 hlt => ?_, fun hok hveq => ?_⟩
          · rw [complete_init_local_state]
            dsimp only
            rw [check_subscriptions_local_state]
            dsimp only
            omega
          · injection hns2 with hns2
            subst hns2
            omega
          · refine ⟨?_, ?_, ?_⟩
            · rw [complete_init_sync_request]
            · rw [complete_init_effects_countP _ _ _ _ rfl]
              cases has_commit_callback <;> cases chunk_sender <;>
                simp [List.countP_append, List.countP_cons, isFireSync, hsub0]
            · exact complete_init_effects_mem _ _ _ _ (by simp)
        · rw [if_neg hcb]
          refine ⟨fun hok => Except.noConfusion hok, fun ns2 hns2 hlt => ?_,
            fun hok => Except.noConfusion hok⟩
          injection hns2 with hns2
          subst hns2
          omega
      · rw [if_neg h2]
        refine ⟨fun hok => ?_, fun ns2 hns2 hlt => ?_, fun hok hveq => ?_⟩
        · rw [complete_init_local_state]
          dsimp only
          rw [check_subscriptions_local_state]
          dsimp only
          omega
        · injection hns2 with hns2
          subst hns2
          omega
        · rw [complete_init_local_state] at hveq
          dsimp only at hveq
          rw [check_subscriptions_local_state] at hveq
          dsimp only at hveq
          omega

/-- Witness for C1 at a concrete completing commit: target version 250 is
reached exactly, the request is removed and the callback fires once. -/
theorem process_commit_sync_request_witness :
    (process_commit env1 st1c [] false none 7).state.sync_request = none ∧
    Effect.fireSyncCallback true ∈ (process_commit env1 st1c [] false none 7).effects :=
  have h := (process_commit_sync_request env1 st1c [] false none 7 req1 _ rfl rfl).2.2
    rfl rfl
  ⟨h.1, h.2.2⟩

end StateSync
